import Mathlib

/-!
# Verification of the go-ruler rule evaluation engine

A shallow embedding of `ruler.go` (package `ruler`): dynamic Go values,
dotted-path resolution (`pluck`), type-aware comparison dispatch
(`compare`), inequality comparison over matching runtime kinds
(`inequality`, `compareUint`, `compareInt`, `compareFloat`, `compareStr`),
regular-expression matching (`regexp`), and the fail-fast conjunctive
evaluator (`Test`).

Modelling conventions:
* A Go `interface{}` value is a `GoValue`; the nil interface is `.vNull`.
  Each concrete Go runtime type the engine can meet is a separate
  constructor, because the code dispatches on `reflect.TypeOf` and uses
  unchecked type assertions whose success depends on the exact dynamic
  type.
* Machine integers are carried as `Nat` / `Int` (the engine never does
  arithmetic on them, only order comparisons, so wrap-around cannot
  occur). IEEE-754 float values are carried as exact rationals (`Rat`);
  the engine only compares them, and every finite float is a rational.
* A Go `map[string]interface{}` is an association list with the Go map
  lookup convention: a missing key yields the zero value, the nil
  interface.
* Go functions returning `(bool, error)` are modelled with `RRes`;
  run-time panics (failed unchecked type assertions, method calls on a
  nil `reflect.Type`) are a distinct `RRes.panicked` outcome so that the
  embedding does not silently turn a crash into a result.
-/

namespace GoRuler

/-- Outcome of a Go `(bool, error)` function in this package: `ok b` is
`(b, nil)`; `fail msg` is `(false, errors.New msg)` (every error return in
the source pairs the error with `false`); `panicked msg` is a run-time
panic reaching the caller. -/
inductive RRes where
  | ok (b : Bool)
  | fail (msg : String)
  | panicked (msg : String)
deriving DecidableEq, Repr

mutual
/-- A dynamic Go value (`interface{}`) as the engine can observe it:
the nil interface, booleans, each unsigned and signed integer type the
`inequality` switch distinguishes, the two float types, strings, nested
`map[string]interface{}` documents and `[]interface{}` slices. -/
inductive GoValue where
  | vNull
  | vBool (b : Bool)
  | vUint8 (n : Nat)
  | vUint16 (n : Nat)
  | vUint32 (n : Nat)
  | vUint64 (n : Nat)
  | vUint (n : Nat)
  | vInt8 (i : Int)
  | vInt16 (i : Int)
  | vInt32 (i : Int)
  | vInt64 (i : Int)
  | vInt (i : Int)
  | vFloat32 (q : Rat)
  | vFloat64 (q : Rat)
  | vString (s : String)
  | vMap (m : GoMap)
  | vList (l : GoList)
deriving DecidableEq, Repr

/-- A Go `map[string]interface{}` as an association list (Go map keys are
unique; lookup takes the first binding). -/
inductive GoMap where
  | nil
  | cons (k : String) (v : GoValue) (rest : GoMap)
deriving DecidableEq, Repr

/-- A Go `[]interface{}` slice. -/
inductive GoList where
  | nil
  | cons (v : GoValue) (rest : GoList)
deriving DecidableEq, Repr
end

/-- The concrete runtime type of a non-nil Go value, as `reflect.TypeOf`
reports it. -/
inductive GoType where
  | tBool
  | tUint8 | tUint16 | tUint32 | tUint64 | tUint
  | tInt8 | tInt16 | tInt32 | tInt64 | tInt
  | tFloat32 | tFloat64
  | tString
  | tMap
  | tList
deriving DecidableEq, Repr

/-- `reflect.TypeOf`: the dynamic type of a value, `none` for the nil
interface (Go returns a nil `reflect.Type`). -/
def goTypeOf : GoValue → Option GoType
  | .vNull => none
  | .vBool _ => some .tBool
  | .vUint8 _ => some .tUint8
  | .vUint16 _ => some .tUint16
  | .vUint32 _ => some .tUint32
  | .vUint64 _ => some .tUint64
  | .vUint _ => some .tUint
  | .vInt8 _ => some .tInt8
  | .vInt16 _ => some .tInt16
  | .vInt32 _ => some .tInt32
  | .vInt64 _ => some .tInt64
  | .vInt _ => some .tInt
  | .vFloat32 _ => some .tFloat32
  | .vFloat64 _ => some .tFloat64
  | .vString _ => some .tString
  | .vMap _ => some .tMap
  | .vList _ => some .tList

/-- `reflect.Type.String()` for the types above (`map[string]interface {}`
and `[]interface {}` spelled as Go prints them). -/
def typeStr : GoType → String
  | .tBool => "bool"
  | .tUint8 => "uint8"
  | .tUint16 => "uint16"
  | .tUint32 => "uint32"
  | .tUint64 => "uint64"
  | .tUint => "uint"
  | .tInt8 => "int8"
  | .tInt16 => "int16"
  | .tInt32 => "int32"
  | .tInt64 => "int64"
  | .tInt => "int"
  | .tFloat32 => "float32"
  | .tFloat64 => "float64"
  | .tString => "string"
  | .tMap => "map[string]interface \x7b\x7d"
  | .tList => "[]interface \x7b\x7d"

/-- `reflect.Type.Comparable()`: maps and slices are the only kinds in
this universe that Go `==` does not support. -/
def comparableT : GoType → Bool
  | .tMap => false
  | .tList => false
  | _ => true

/-- `Comparable()` of a value's dynamic type (only queried on non-nil
values in the source). -/
def comparableV (v : GoValue) : Bool :=
  match goTypeOf v with
  | some t => comparableT t
  | none => true

/-! Comparator codes, from the `iota` block at the top of `ruler.go`. -/

def eq : Nat := 0
def neq : Nat := 1
def gt : Nat := 2
def gte : Nat := 3
def lt : Nat := 4
def lte : Nat := 5
def «exists» : Nat := 6
def nexists : Nat := 7
def regex : Nat := 8
def «matches» : Nat := 9
def contains : Nat := 10
def ncontains : Nat := 11

/-- `compareUint`: the source does the unchecked type assertions
`actual.(uint64)` and `expected.(uint64)`, which succeed only when the
dynamic type is exactly `uint64` and otherwise panic at run time — there
is no width conversion in the code. The `switch op` falls through to
`false` for non-ordering codes. -/
def compareUint (op : Nat) (actual expected : GoValue) : RRes :=
  match actual with
  | .vUint64 x =>
    match expected with
    | .vUint64 y =>
      .ok (if op = gt then decide (x > y)
           else if op = gte then decide (x ≥ y)
           else if op = lt then decide (x < y)
           else if op = lte then decide (x ≤ y)
           else false)
    | _ => .panicked "interface conversion: expected value is not uint64"
  | _ => .panicked "interface conversion: actual value is not uint64"

/-- `compareInt`: unchecked assertions `actual.(int64)` / `expected.(int64)`,
panicking for every other signed width. -/
def compareInt (op : Nat) (actual expected : GoValue) : RRes :=
  match actual with
  | .vInt64 x =>
    match expected with
    | .vInt64 y =>
      .ok (if op = gt then decide (x > y)
           else if op = gte then decide (x ≥ y)
           else if op = lt then decide (x < y)
           else if op = lte then decide (x ≤ y)
           else false)
    | _ => .panicked "interface conversion: expected value is not int64"
  | _ => .panicked "interface conversion: actual value is not int64"

/-- `compareFloat`: unchecked assertions `actual.(float64)` /
`expected.(float64)`, panicking on `float32` operands. -/
def compareFloat (op : Nat) (actual expected : GoValue) : RRes :=
  match actual with
  | .vFloat64 x =>
    match expected with
    | .vFloat64 y =>
      .ok (if op = gt then decide (x > y)
           else if op = gte then decide (x ≥ y)
           else if op = lt then decide (x < y)
           else if op = lte then decide (x ≤ y)
           else false)
    | _ => .panicked "interface conversion: expected value is not float64"
  | _ => .panicked "interface conversion: actual value is not float64"

/-- Numeric value of a digit character. -/
def digitVal (c : Char) : Nat := c.toNat - 48

/-- Value of a digit run read in base 10. -/
def digitsToNat (cs : List Char) : Nat := cs.foldl (fun a c => 10 * a + digitVal c) 0

/-- Split a leading run of decimal digits from the rest. -/
def spanDigits (cs : List Char) : List Char × List Char :=
  cs.span (fun c => c.isDigit)

/-- Exact rational value of a parsed decimal with sign `neg`, integer
digits `ip`, fraction digits `fp` and decimal exponent `e`. -/
def decValue (neg : Bool) (ip fp : List Char) (e : Int) : Rat :=
  let m : Int :=
    (if neg then -1 else 1) *
      ((digitsToNat ip * 10 ^ fp.length + digitsToNat fp : Nat) : Int)
  (m : Rat) * (10 : Rat) ^ (e - (fp.length : Int))

/-- Modelled from the Go standard library `strconv.ParseFloat(s, 64)`,
restricted to finite decimal syntax: optional sign, integer and/or
fractional digit runs around an optional point, optional `e`/`E` exponent
with optional sign and mandatory digits, nothing else before or after.
The parsed value is kept as an exact rational; the rounding of the
decimal to the nearest binary64, and the special forms `Inf`/`NaN`, hex
floats and digit-group underscores, are outside the model (no claim
depends on them). -/
def goParseFloat (s : String) : Option Rat :=
  let cs := s.data
  let signAndRest : Bool × List Char :=
    match cs with
    | '+' :: rest => (false, rest)
    | '-' :: rest => (true, rest)
    | rest => (false, rest)
  let neg := signAndRest.1
  let ipRest := spanDigits signAndRest.2
  let ip := ipRest.1
  let fpRest : List Char × List Char :=
    match ipRest.2 with
    | '.' :: rest => spanDigits rest
    | rest => ([], rest)
  let fp := fpRest.1
  if ip.isEmpty ∧ fp.isEmpty then none
  else
    let expAndRest : Option (Int × List Char) :=
      match fpRest.2 with
      | 'e' :: rest | 'E' :: rest =>
        let esignRest : Int × List Char :=
          match rest with
          | '+' :: r => (1, r)
          | '-' :: r => (-1, r)
          | r => (1, r)
        let edRest := spanDigits esignRest.2
        if edRest.1.isEmpty then none
        else some (esignRest.1 * (digitsToNat edRest.1 : Int), edRest.2)
      | rest => some (0, rest)
    match expAndRest with
    | none => none
    | some er =>
      if er.2.isEmpty then some (decValue neg ip fp er.1) else none

/-- `compareStr`: assert both operands to `string`, parse both with
`strconv.ParseFloat(·, 64)`; a parse failure on either side returns
`false` with no error; otherwise the ordering operator is applied to the
parsed numbers. -/
def compareStr (op : Nat) (actual expected : GoValue) : RRes :=
  match actual with
  | .vString a =>
    match expected with
    | .vString e =>
      match goParseFloat a with
      | none => .ok false
      | some af =>
        match goParseFloat e with
        | none => .ok false
        | some ef =>
          .ok (if op = gt then decide (af > ef)
               else if op = gte then decide (af ≥ ef)
               else if op = lt then decide (af < ef)
               else if op = lte then decide (af ≤ ef)
               else false)
    | _ => .panicked "interface conversion: expected value is not a string"
  | _ => .panicked "interface conversion: actual value is not a string"

/-- `inequality`: reject operands whose `reflect.TypeOf` differ, then
switch on the type's name string exactly as the source does. A nil
`actual` with nil `expected` would call `String()` on a nil
`reflect.Type` and panic; unlisted types (booleans, maps, slices) fall to
the invalid-type error. -/
def inequality (op : Nat) (actual expected : GoValue) : RRes :=
  if goTypeOf actual ≠ goTypeOf expected then
    .fail "Value types are mismatched, cannot compare values"
  else
    match goTypeOf actual with
    | none => .panicked "runtime error: invalid memory address or nil pointer dereference"
    | some t =>
      match typeStr t with
      | "uint8" => compareUint op actual expected
      | "uint16" => compareUint op actual expected
      | "uint32" => compareUint op actual expected
      | "uint64" => compareUint op actual expected
      | "uint" => compareUint op actual expected
      | "int8" => compareInt op actual expected
      | "int16" => compareInt op actual expected
      | "int32" => compareInt op actual expected
      | "int64" => compareInt op actual expected
      | "int" => compareInt op actual expected
      | "float32" => compareFloat op actual expected
      | "float64" => compareFloat op actual expected
      | "string" => compareStr op actual expected
      | _ => .fail "Invalid type for inequality comparison"

/-! ## Regular expressions

Modelled from the Go standard library `regexp` (RE2) used by the
matching comparators, restricted to a core subset: literal characters,
`\`-escaped literals, `.`, grouping `( )`, alternation `|`, and the
postfix repetitions `*`, `+`, `?`. Other metacharacters (classes,
braces, anchors) are treated as compile errors; no claim depends on
them. Compilation either yields a syntax tree or fails (`regexp.Compile`
returning an error); matching is unanchored substring search
(`Regexp.MatchString`). -/

/-- Regular-expression syntax trees for the modelled subset. -/
inductive RE where
  | void
  | eps
  | chr (c : Char)
  | dot
  | alt (r s : RE)
  | cat (r s : RE)
  | star (r : RE)
deriving DecidableEq, Repr

/-- Characters with meta-meaning in the modelled subset; a bare
occurrence is not a literal atom. The bracket and brace forms are
unsupported and therefore rejected at compile time. -/
def metaChars : List Char := ['(', ')', '|', '*', '+', '?', '\\', '[', ']', '\x7b', '\x7d', '^', '$']

/-- Apply trailing repetition operators to a parsed atom. -/
def parsePostfix (r : RE) : List Char → RE × List Char
  | '*' :: rest => parsePostfix (.star r) rest
  | '+' :: rest => parsePostfix (.cat r (.star r)) rest
  | '?' :: rest => parsePostfix (.alt r .eps) rest
  | rest => (r, rest)

mutual
/-- Parse an alternation `cat ('|' cat)*`. Fuel bounds the recursion
depth; `reCompile` supplies enough for any input. -/
def parseAlt (fuel : Nat) (cs : List Char) : Option (RE × List Char) :=
  match fuel with
  | 0 => none
  | fuel' + 1 =>
    match parseCat fuel' cs with
    | none => none
    | some (r, rest) =>
      match rest with
      | '|' :: rest' =>
        match parseAlt fuel' rest' with
        | none => none
        | some (s, rest'') => some (.alt r s, rest'')
      | _ => some (r, rest)

/-- Parse a possibly-empty concatenation of repeated atoms. -/
def parseCat (fuel : Nat) (cs : List Char) : Option (RE × List Char) :=
  match fuel with
  | 0 => none
  | fuel' + 1 =>
    match parseRep fuel' cs with
    | none => some (.eps, cs)
    | some (r, rest) =>
      match parseCat fuel' rest with
      | none => none
      | some (s, rest') => some (.cat r s, rest')

/-- Parse one atom with its postfix `*` / `+` / `?` operators. -/
def parseRep (fuel : Nat) (cs : List Char) : Option (RE × List Char) :=
  match fuel with
  | 0 => none
  | fuel' + 1 =>
    match parseAtom fuel' cs with
    | none => none
    | some (r, rest) => some (parsePostfix r rest)

/-- Parse a single atom: a group, `.`, an escaped literal, or a plain
literal character. -/
def parseAtom (fuel : Nat) (cs : List Char) : Option (RE × List Char) :=
  match fuel with
  | 0 => none
  | fuel' + 1 =>
    match cs with
    | [] => none
    | '(' :: rest =>
      match parseAlt fuel' rest with
      | none => none
      | some (r, rest') =>
        match rest' with
        | ')' :: rest'' => some (r, rest'')
        | _ => none
    | '.' :: rest => some (.dot, rest)
    | '\\' :: c :: rest => some (.chr c, rest)
    | c :: rest => if c ∈ metaChars then none else some (.chr c, rest)
end

/-- `regexp.Compile`: parse the whole pattern or fail. -/
def reCompile (pat : String) : Option RE :=
  match parseAlt (4 * pat.length + 8) pat.data with
  | some (r, []) => some r
  | _ => none

/-- Does the expression accept the empty string? -/
def nullable : RE → Bool
  | .void => false
  | .eps => true
  | .chr _ => false
  | .dot => false
  | .alt r s => nullable r || nullable s
  | .cat r s => nullable r && nullable s
  | .star _ => true

/-- Brzozowski derivative with respect to one character. -/
def derivC (c : Char) : RE → RE
  | .void => .void
  | .eps => .void
  | .chr d => if c = d then .eps else .void
  | .dot => .eps
  | .alt r s => .alt (derivC c r) (derivC c s)
  | .cat r s =>
    if nullable r then .alt (.cat (derivC c r) s) (derivC c s)
    else .cat (derivC c r) s
  | .star r => .cat (derivC c r) (.star r)

/-- Does the expression match some (possibly empty) leading part of the
character list? -/
def matchSomeLead (r : RE) : List Char → Bool
  | [] => nullable r
  | c :: rest => nullable r || matchSomeLead (derivC c r) rest

/-- Unanchored search over every suffix start position. -/
def searchFrom (r : RE) : List Char → Bool
  | [] => matchSomeLead r []
  | cs@(_ :: rest) => matchSomeLead r cs || searchFrom r rest

/-- `Regexp.MatchString`: unanchored substring match. -/
def matchString (r : RE) (s : String) : Bool := searchFrom r s.data

/-- The `regexp` method on `Ruler`: both operands must be strings
(checked assertions, so an error rather than a panic), the pattern must
compile, and the result is an unanchored match. -/
def regexpM (actual expected : GoValue) : RRes :=
  match expected with
  | .vString streg =>
    match actual with
    | .vString astring =>
      match reCompile streg with
      | none => .fail "regexp is bad, bailing"
      | some reg => .ok (matchString reg astring)
    | _ => .fail "actual value not actually a string, bailing"
  | _ => .fail "expected value not actually a string, bailing"

/-- The `Rule` struct. Its declaration lives in a sibling file of the
package (only its use sites appear in `ruler.go`); fields and their
meaning follow spec §3 and the positional literal
`&Rule{"", path, nil}` in `Ruler.Rule`: a comparator token, a dotted
path, and a dynamic expected value. -/
structure Rule where
  Comparator : String
  Path : String
  Value : GoValue
deriving DecidableEq, Repr

/-- Go `==` on two `interface{}` values: different dynamic types are
simply unequal; identical comparable types compare their values;
identical non-comparable types (maps, slices) panic at run time. Two nil
interfaces are equal. -/
def goIfaceEq (a b : GoValue) : RRes :=
  match a, b with
  | .vMap _, .vMap _ => .panicked "runtime error: comparing uncomparable type map[string]interface \x7b\x7d"
  | .vList _, .vList _ => .panicked "runtime error: comparing uncomparable type []interface \x7b\x7d"
  | _, _ => .ok (decide (a = b))

/-- The `compare` method on `Ruler`: dispatch on the comparator token.
`eq`/`neq` use Go interface equality; the four ordering tokens delegate
to `inequality`; `exists`/`nexists` test the actual value against nil;
`regex`/`contains`/`matches` fall through to the `regexp` method;
`ncontains` negates the `regexp` boolean but returns early on its error;
anything else is the unknown-comparator error (whose message is the
unformatted literal from the source). -/
def compare (f : Rule) (actual : GoValue) : RRes :=
  match f.Comparator with
  | "eq" => goIfaceEq actual f.Value
  | "neq" =>
    match goIfaceEq actual f.Value with
    | .ok b => .ok !b
    | other => other
  | "gt" => inequality gt actual f.Value
  | "gte" => inequality gte actual f.Value
  | "lt" => inequality lt actual f.Value
  | "lte" => inequality lte actual f.Value
  | "exists" => if actual ≠ .vNull then .ok true else .ok false
  | "nexists" => if actual = .vNull then .ok true else .ok false
  | "regex" => regexpM actual f.Value
  | "contains" => regexpM actual f.Value
  | "matches" => regexpM actual f.Value
  | "ncontains" =>
    match regexpM actual f.Value with
    | .ok b => .ok !b
    | other => other
  | _ => .fail "unknown comparator %s"

/-- Go map indexing `o[k]` on a `map[string]interface{}`: a missing key
yields the zero value, the nil interface. -/
def mapGet : GoMap → String → GoValue
  | .nil, _ => .vNull
  | .cons k v rest, key => if k = key then v else mapGet rest key

/-- The walk of `pluck` after the first segment: for every segment but
the last, the value must be non-nil and assert to
`map[string]interface{}`; the last segment's value is returned if
non-nil, else nil. -/
def pluckRest (prev : GoMap) : List String → GoValue
  | [] => .vNull
  | [last] =>
    if mapGet prev last ≠ .vNull then mapGet prev last else .vNull
  | cp :: c :: rest =>
    match mapGet prev cp with
    | .vNull => .vNull
    | .vMap m => pluckRest m (c :: rest)
    | _ => .vNull

/-- `strings.Split(path, ".")` for the one-character separator the
source uses: split on every `'.'`, keeping empty segments; the result
always has at least one element (`Split("", ".")` is `[""]`). -/
def splitDot : List Char → List String
  | [] => [""]
  | c :: rest =>
    if c = '.' then "" :: splitDot rest
    else
      match splitDot rest with
      | [] => [String.mk [c]]
      | s :: ss => String.mk (c :: s.data) :: ss

/-- `pluck`: split the path on `.`; a one-segment path is a direct
lookup; a longer path requires the first value to be a nested map and
walks the remainder; every failure mode yields nil. (`strings.Split`
never returns an empty slice, so the `[]` case is dead.) -/
def pluck (o : GoMap) (path : String) : GoValue :=
  match splitDot path.data with
  | [] => .vNull
  | [p0] => if mapGet o p0 ≠ .vNull then mapGet o p0 else .vNull
  | p0 :: p1 :: rest =>
    if mapGet o p0 ≠ .vNull then
      match mapGet o p0 with
      | .vMap prev => pluckRest prev (p1 :: rest)
      | _ => .vNull
    else .vNull

/-- What one iteration of the `Test` loop does with a rule: continue to
the next rule, or stop the whole evaluation with a result. -/
inductive StepRes where
  | cont
  | stop (r : RRes)
deriving DecidableEq, Repr

/-- One iteration of the `Test` loop. With a non-nil resolved value, the
`reflect` comparability guard returns `(false, nil)` when either side is
a map or slice — with the caveat that a nil expected value makes
`e.Comparable()` a method call on a nil `reflect.Type`, a panic; then
`compare` runs: an error stops with that error, `false` stops with
`(false, nil)`, `true` moves to the next rule. With a nil resolved value,
`exists`/`nexists` stop the loop with `compare`'s result, and every other
comparator stops with the missing-property error naming the path. -/
def testStep (f : Rule) (o : GoMap) : StepRes :=
  let val := pluck o f.Path
  if val ≠ .vNull then
    if !(comparableV val) then .stop (.ok false)
    else
      match goTypeOf f.Value with
      | none => .stop (.panicked "runtime error: invalid memory address or nil pointer dereference")
      | some te =>
        if !(comparableT te) then .stop (.ok false)
        else
          match compare f val with
          | .ok true => .cont
          | .ok false => .stop (.ok false)
          | .fail m => .stop (.fail m)
          | .panicked m => .stop (.panicked m)
  else if f.Comparator = "exists" ∨ f.Comparator = "nexists" then
    .stop (compare f val)
  else
    .stop (.fail ("did not find property (" ++ f.Path ++ ") on map"))

/-- The `Test` method on `Ruler`: run the loop body rule by rule; an
exhausted loop returns `(true, nil)`. -/
def Test (rules : List Rule) (o : GoMap) : RRes :=
  match rules with
  | [] => .ok true
  | f :: rest =>
    match testStep f o with
    | .cont => Test rest o
    | .stop r => r

/-- Does a value classify as `Unsupported` in the spec's Typed Value
Classifier: a nested mapping, a list, or any other non-comparable
aggregate (in this universe exactly the maps and slices)? -/
def unsupported : GoValue → Bool
  | .vMap _ => true
  | .vList _ => true
  | _ => false

/-- Presence-aware map lookup (`v, ok := o[k]`): distinguishes a missing
key from a stored nil, unlike `mapGet`. -/
def mapFind : GoMap → String → Option GoValue
  | .nil, _ => none
  | .cons k v rest, key => if k = key then some v else mapFind rest key

/-- The Path Resolver as spec §4.1 words it, for comparison with the
source's `pluck`: walk the segments in order; every segment but the last
must find a nested mapping, else resolution is absent (`none`)
immediately; the final segment's value is returned as-is if the key is
present, else absent. -/
def resolveSpec : GoMap → List String → Option GoValue
  | _, [] => none
  | o, [k] => mapFind o k
  | o, k :: c :: rest =>
    match mapFind o k with
    | some (.vMap m) => resolveSpec m (c :: rest)
    | _ => none

mutual
/-- No nil interface value is stored anywhere in the nested mappings of
a document (lists are opaque leaves the resolver never enters). -/
def nullFreeM : GoMap → Bool
  | .nil => true
  | .cons _ v rest => nullFreeV v && nullFreeM rest

/-- A value neither is nil nor stores nil inside nested mappings. -/
def nullFreeV : GoValue → Bool
  | .vNull => false
  | .vMap m => nullFreeM m
  | _ => true
end

/-- Walking the path meets a stored nil: every key up to some step is
present in its nested mapping, and that step's stored value is the nil
interface (at an intermediate step or at the final segment). -/
def hitsNull : GoMap → List String → Bool
  | _, [] => false
  | o, [k] => decide (mapFind o k = some .vNull)
  | o, k :: c :: rest =>
    match mapFind o k with
    | some .vNull => true
    | some (.vMap m) => hitsNull m (c :: rest)
    | _ => false

/-- The requested ordering operator on exact rationals, as the spec
describes the comparison of two parsed numeric strings (codes outside
the four ordering comparators have no defined ordering and yield
`false`, as the source's `switch` default does). -/
def ratOrd (op : Nat) (x y : Rat) : Bool :=
  if op = gt then decide (x > y)
  else if op = gte then decide (x ≥ y)
  else if op = lt then decide (x < y)
  else if op = lte then decide (x ≤ y)
  else false

/-! ## Shared lemmas -/

theorem Test_cons (f : Rule) (rest : List Rule) (o : GoMap) :
    Test (f :: rest) o =
      (match testStep f o with
       | .cont => Test rest o
       | .stop r => r) := rfl

theorem Test_append_cont (pre rest : List Rule) (o : GoMap)
    (h : ∀ g ∈ pre, testStep g o = .cont) :
    Test (pre ++ rest) o = Test rest o := by
  induction pre with
  | nil => rfl
  | cons g gs ih =>
    have hg : testStep g o = .cont := h g (by simp)
    rw [List.cons_append, Test_cons, hg]
    exact ih (fun x hx => h x (List.mem_cons_of_mem g hx))

theorem testStep_absent (f : Rule) (o : GoMap) (h : pluck o f.Path = .vNull) :
    testStep f o =
      (if f.Comparator = "exists" then .stop (.ok false)
       else if f.Comparator = "nexists" then .stop (.ok true)
       else .stop (.fail ("did not find property (" ++ f.Path ++ ") on map"))) := by
  by_cases h1 : f.Comparator = "exists"
  · simp [testStep, h, h1, compare]
  · by_cases h2 : f.Comparator = "nexists"
    · simp [testStep, h, h1, h2, compare]
    · simp [testStep, h, h1, h2]

theorem Test_single_absent (f : Rule) (o : GoMap) (h : pluck o f.Path = .vNull) :
    Test [f] o =
      (if f.Comparator = "exists" then .ok false
       else if f.Comparator = "nexists" then .ok true
       else .fail ("did not find property (" ++ f.Path ++ ") on map")) := by
  rw [Test_cons, testStep_absent f o h]
  by_cases h1 : f.Comparator = "exists"
  · simp [h1]
  · by_cases h2 : f.Comparator = "nexists" <;> simp [h1, h2]

/-! ## Claim C1 -/

/-- C1: the claim reads that for operands of the same concrete integer
kind of any width the Inequality Engine canonicalizes to a 64-bit bucket
and answers without error. The code instead applies the unchecked type
assertions `actual.(uint64)` / `actual.(int64)` inside `compareUint` /
`compareInt`, which panic at run time for every integer kind other than
the exact 64-bit ones, although `inequality` deliberately routes all ten
integer kinds there. Evaluating the code at the failing inputs: two
`uint8` operands (and two `int` operands) panic instead of comparing,
while the 64-bit kinds behave as claimed. -/
theorem inequality_narrow_int_kinds_panic :
    inequality lt (.vUint8 1) (.vUint8 2) =
      .panicked "interface conversion: actual value is not uint64"
    ∧ inequality lt (.vInt 1) (.vInt 2) =
      .panicked "interface conversion: actual value is not int64"
    ∧ inequality lt (.vUint64 1) (.vUint64 2) = .ok true
    ∧ inequality lt (.vInt64 1) (.vInt64 2) = .ok true := by
  refine ⟨rfl, rfl, ?_, ?_⟩ <;> decide

/-! ## Claim C4 -/

/-- C4: with an absent resolved value the dispatcher yields `false` for
`exists`, `true` for `nexists`, and fails with the missing-property
error naming the path for every other comparator. -/
theorem absent_path_dispatch (f : Rule) (o : GoMap)
    (h : pluck o f.Path = .vNull) :
    (f.Comparator = "exists" → Test [f] o = .ok false)
    ∧ (f.Comparator = "nexists" → Test [f] o = .ok true)
    ∧ (f.Comparator ≠ "exists" → f.Comparator ≠ "nexists" →
        Test [f] o = .fail ("did not find property (" ++ f.Path ++ ") on map")) := by
  refine ⟨fun h1 => ?_, fun h2 => ?_, fun h1 h2 => ?_⟩ <;>
    rw [Test_single_absent f o h]
  · simp [h1]
  · have h1 : f.Comparator ≠ "exists" := by rw [h2]; decide
    simp [h1, h2]
  · simp [h1, h2]

/-- Witness for C4 at the spec's own example: document `{a:1}`, rule
`{path:"x", eq, 1}` fails with the missing-property error. -/
theorem absent_path_dispatch_witness :
    Test [⟨"eq", "x", .vInt64 1⟩] (.cons "a" (.vInt64 1) .nil) =
      .fail "did not find property (x) on map" :=
  (absent_path_dispatch ⟨"eq", "x", .vInt64 1⟩ (.cons "a" (.vInt64 1) .nil)
    (by decide)).2.2 (by decide) (by decide)

/-! ## Claim C5 -/

/-- C5: operands whose concrete runtime kinds differ (any two distinct
types, in particular two integer kinds of different width or signedness)
make `inequality` fail with the type-mismatch error before any
comparison or coercion is attempted. -/
theorem inequality_type_mismatch (op : Nat) (a e : GoValue)
    (h : goTypeOf a ≠ goTypeOf e) :
    inequality op a e = .fail "Value types are mismatched, cannot compare values" := by
  rw [inequality, if_pos h]

/-- Witness for C5 at the spec's cross-width example: 32-bit signed
actual against 64-bit signed expected under `gt`. -/
theorem inequality_type_mismatch_witness :
    inequality gt (.vInt32 5) (.vInt64 5) =
      .fail "Value types are mismatched, cannot compare values" :=
  inequality_type_mismatch gt (.vInt32 5) (.vInt64 5) (by decide)

/-! ## Claim C2 -/

/-- C2 counterexample: over the document `{a:2}`, the rule sequence
`[{nexists,x}, {eq,a,1}]` evaluates to overall `true` although its second
rule produces a definite `false` (no error): the absent-path `nexists`
rule returns its `true` immediately and the loop never reaches the
second rule. This refutes both "overall true only if every rule in the
sequence produces true" and "the first rule producing a definite false
stops evaluation and yields overall false" as universally quantified
statements. -/
theorem Test_early_true_counterexample :
    Test [⟨"nexists", "x", .vBool true⟩, ⟨"eq", "a", .vInt64 1⟩]
        (.cons "a" (.vInt64 2) .nil) = .ok true
    ∧ Test [⟨"eq", "a", .vInt64 1⟩] (.cons "a" (.vInt64 2) .nil) = .ok false
    ∧ testStep ⟨"eq", "a", .vInt64 1⟩ (.cons "a" (.vInt64 2) .nil) =
        .stop (.ok false) := by
  refine ⟨?_, ?_, ?_⟩ <;> decide

/-- C2 (amended): the empty rule set yields `true`; if every rule of the
sequence individually evaluates to `true` the overall result is `true`;
and the first rule *reached by the loop* that produces a definite
`false` (no error) stops evaluation with overall `false`. Overall `true`
does not conversely require every rule to produce `true`: an absent-path
`exists`/`nexists` rule returns its result immediately and skips the
remaining rules, which is why the fail-fast clause asks the earlier
rules to continue the loop. -/
theorem Test_fail_fast_conjunction (rs : List Rule) (o : GoMap) :
    Test [] o = .ok true
    ∧ ((∀ f ∈ rs, Test [f] o = .ok true) → Test rs o = .ok true)
    ∧ (∀ pre f post, rs = pre ++ f :: post →
        (∀ g ∈ pre, testStep g o = .cont) →
        testStep f o = .stop (.ok false) →
        Test rs o = .ok false) := by
  refine ⟨rfl, ?_, ?_⟩
  · induction rs with
    | nil => intro _; rfl
    | cons f gs ih =>
      intro h
      have hf := h f (List.mem_cons_self f gs)
      rw [Test_cons] at hf ⊢
      cases e : testStep f o with
      | cont => exact ih (fun g hg => h g (List.mem_cons_of_mem f hg))
      | stop r => rw [e] at hf; exact hf
  · intro pre f post hrs hpre hf
    rw [hrs, Test_append_cont pre _ o hpre, Test_cons, hf]

/-- Witness for C2's amended fail-fast clause at a concrete input: a
single equality rule that evaluates to a definite false makes the whole
evaluation false. -/
theorem Test_fail_fast_conjunction_witness :
    Test [⟨"eq", "a", .vInt64 1⟩] (.cons "a" (.vInt64 2) .nil) = .ok false :=
  (Test_fail_fast_conjunction [⟨"eq", "a", .vInt64 1⟩]
      (.cons "a" (.vInt64 2) .nil)).2.2
    [] ⟨"eq", "a", .vInt64 1⟩ [] rfl (by simp) (by decide)

/-! ## Claim C3 -/

theorem unsupported_not_comparable (v : GoValue) (h : unsupported v = true) :
    comparableV v = false := by
  cases v <;> simp_all [unsupported, comparableV, goTypeOf, comparableT]

theorem unsupported_goTypeOf (v : GoValue) (h : unsupported v = true) :
    ∃ t, goTypeOf v = some t ∧ comparableT t = false := by
  cases v <;> first
    | exact ⟨.tMap, rfl, rfl⟩
    | exact ⟨.tList, rfl, rfl⟩
    | simp [unsupported] at h

/-- C3: when a rule's path resolves to a present value and either the
resolved value or the rule's expected value classifies as Unsupported (a
nested mapping or list), evaluation of the entire rule set stops at that
rule with overall `false` and no error, whatever the rule's comparator
and whatever rules remain. -/
theorem unsupported_operand_aborts (pre post : List Rule) (f : Rule) (o : GoMap)
    (hpre : ∀ g ∈ pre, testStep g o = .cont)
    (hval : pluck o f.Path ≠ .vNull)
    (hun : unsupported (pluck o f.Path) = true ∨ unsupported f.Value = true) :
    Test (pre ++ f :: post) o = .ok false := by
  have hstep : testStep f o = .stop (.ok false) := by
    unfold testStep
    rw [if_pos hval]
    by_cases hc : comparableV (pluck o f.Path) = false
    · rw [hc]; rfl
    · have hue : unsupported f.Value = true := by
        cases hun with
        | inl h => exact absurd (unsupported_not_comparable _ h) hc
        | inr h => exact h
      have hcv : comparableV (pluck o f.Path) = true := by
        cases hcc : comparableV (pluck o f.Path) with
        | false => exact absurd hcc hc
        | true => rfl
      obtain ⟨t, ht, hct⟩ := unsupported_goTypeOf f.Value hue
      rw [hcv, ht]
      simp [hct]
  rw [Test_append_cont pre _ o hpre, Test_cons, hstep]

/-- Witness for C3: an unsupported expected value (a nested map) on the
first rule yields overall false even though a second, passing-shaped
rule follows. -/
theorem unsupported_operand_aborts_witness :
    Test [⟨"gt", "a", .vMap .nil⟩, ⟨"eq", "b", .vInt64 1⟩]
        (.cons "a" (.vInt64 2) .nil) = .ok false :=
  unsupported_operand_aborts [] [⟨"eq", "b", .vInt64 1⟩] ⟨"gt", "a", .vMap .nil⟩
    (.cons "a" (.vInt64 2) .nil) (by simp) (by decide) (Or.inr (by decide))

/-! ## Claim C7 -/

/-- C7: with comparator `ncontains` the dispatcher returns the logical
negation of the Pattern Matcher's boolean when matching succeeds, and
propagates any Pattern Matcher error unchanged; in particular a
malformed pattern surfaces the invalid-pattern error rather than any
negated boolean. -/
theorem ncontains_negates_and_propagates (f : Rule) (a : GoValue)
    (h : f.Comparator = "ncontains") :
    (∀ b, regexpM a f.Value = .ok b → compare f a = .ok !b)
    ∧ (∀ m, regexpM a f.Value = .fail m → compare f a = .fail m)
    ∧ (∀ p s, f.Value = .vString p → reCompile p = none → a = .vString s →
        compare f a = .fail "regexp is bad, bailing") := by
  refine ⟨fun b hb => ?_, fun m hm => ?_, fun p s hp hrc ha => ?_⟩
  · simp [compare, h, hb]
  · simp [compare, h, hm]
  · subst ha
    simp [compare, h, regexpM, hp, hrc]

/-- Witness for C7 at the spec's malformed-pattern example: the pattern
`"("` does not compile, and `ncontains` surfaces the pattern error
instead of a negated boolean. -/
theorem ncontains_negates_and_propagates_witness :
    compare ⟨"ncontains", "p", .vString "("⟩ (.vString "x") =
      .fail "regexp is bad, bailing" :=
  (ncontains_negates_and_propagates ⟨"ncontains", "p", .vString "("⟩
    (.vString "x") rfl).2.2 "(" "x" rfl (by decide) rfl

/-! ## Claim C8 -/

theorem goIfaceEq_scalar (a b : GoValue) (ha : unsupported a = false) :
    goIfaceEq a b = .ok (decide (a = b)) := by
  cases a <;> first
    | rfl
    | simp [unsupported] at ha

/-- C8: with a present, comparable resolved value, comparator `eq`
answers true (and `neq` answers false) exactly when actual and expected
are the same value of the same runtime kind — Go interface equality;
values of different kinds are never equal. -/
theorem compare_eq_neq (f : Rule) (a : GoValue) (ha : unsupported a = false) :
    (f.Comparator = "eq" →
       ((compare f a = .ok true ↔ a = f.Value)
        ∧ (compare f a = .ok false ↔ a ≠ f.Value)))
    ∧ (f.Comparator = "neq" →
       ((compare f a = .ok true ↔ a ≠ f.Value)
        ∧ (compare f a = .ok false ↔ a = f.Value))) := by
  refine ⟨fun h => ?_, fun h => ?_⟩ <;>
    simp [compare, h, goIfaceEq_scalar a f.Value ha]

/-- Witness for C8 at the spec's cross-kind example: integer 5 and text
"5" are never equal. -/
theorem compare_eq_neq_witness :
    compare ⟨"eq", "p", .vString "5"⟩ (.vInt64 5) = .ok false :=
  ((compare_eq_neq ⟨"eq", "p", .vString "5"⟩ (.vInt64 5) (by decide)).1
    rfl).2.mpr (by decide)

/-! ## Claim C6 -/

/-- C6: for text-kind operands on both sides, `inequality` parses both
strings as decimal floating-point numbers: a parse failure on either
side yields `false` with no error, and when both parse the result is the
requested ordering operator applied to the parsed numbers — numeric
ordering, not lexicographic. -/
theorem inequality_strings (op : Nat) (a b : String) :
    ((goParseFloat a = none ∨ goParseFloat b = none) →
       inequality op (.vString a) (.vString b) = .ok false)
    ∧ (∀ x y, goParseFloat a = some x → goParseFloat b = some y →
       inequality op (.vString a) (.vString b) = .ok (ratOrd op x y)) := by
  constructor
  · intro h
    cases h with
    | inl ha => simp [inequality, goTypeOf, typeStr, compareStr, ha]
    | inr hb =>
      cases e : goParseFloat a with
      | none => simp [inequality, goTypeOf, typeStr, compareStr, e]
      | some x => simp [inequality, goTypeOf, typeStr, compareStr, e, hb]
  · intro x y hx hy
    simp [inequality, goTypeOf, typeStr, compareStr, hx, hy, ratOrd]

/-- Witness for C6 at the spec's numeric-string example: `"9" gt "10"`
is false numerically (9 < 10) though lexicographically "9" follows "10";
and a non-numeric operand gives false with no error. -/
theorem inequality_strings_witness :
    inequality gt (.vString "9") (.vString "10") = .ok false
    ∧ inequality gt (.vString "zz") (.vString "10") = .ok false := by
  constructor
  · have h := (inequality_strings gt "9" "10").2 (decValue false ['9'] [] 0)
      (decValue false ['1', '0'] [] 0) rfl rfl
    rw [h]
    norm_num [ratOrd, decValue, gt, gte, lt, lte,
      show digitsToNat ['9'] = 9 from by decide,
      show digitsToNat ['1', '0'] = 10 from by decide,
      show digitsToNat [] = 0 from rfl]
  · exact (inequality_strings gt "zz" "10").1 (Or.inl (by decide))

/-! ## Claim C9 -/

theorem mapGet_eq_find (o : GoMap) (k : String) :
    mapGet o k = (mapFind o k).getD .vNull := by
  match o with
  | .nil => rfl
  | .cons k' v rest =>
    by_cases h : k' = k
    · simp [mapGet, mapFind, h]
    · simp only [mapGet, mapFind, if_neg h]
      exact mapGet_eq_find rest k

theorem nullFree_find (o : GoMap) (k : String) (v : GoValue)
    (h : nullFreeM o = true) (e : mapFind o k = some v) : nullFreeV v = true := by
  match o with
  | .nil => simp [mapFind] at e
  | .cons k' w rest =>
    rw [nullFreeM, Bool.and_eq_true] at h
    by_cases hk : k' = k
    · rw [mapFind, if_pos hk] at e
      cases e
      exact h.1
    · rw [mapFind, if_neg hk] at e
      exact nullFree_find rest k v h.2 e

theorem nullFreeV_ne_null (v : GoValue) (h : nullFreeV v = true) : v ≠ .vNull := by
  cases v <;> simp_all [nullFreeV]

theorem pluckRest_eq_resolveSpec (parts : List String) (prev : GoMap)
    (h : nullFreeM prev = true) :
    pluckRest prev parts = (resolveSpec prev parts).getD .vNull := by
  induction parts generalizing prev with
  | nil => rfl
  | cons cp rest ih =>
    cases rest with
    | nil =>
      cases e : mapFind prev cp with
      | none => simp [pluckRest, resolveSpec, mapGet_eq_find, e]
      | some v =>
        have hv := nullFreeV_ne_null v (nullFree_find prev cp v h e)
        simp [pluckRest, resolveSpec, mapGet_eq_find, e, hv]
    | cons c2 r2 =>
      cases e : mapFind prev cp with
      | none => simp [pluckRest, resolveSpec, mapGet_eq_find, e]
      | some v =>
        have hvf := nullFree_find prev cp v h e
        have hg : mapGet prev cp = v := by rw [mapGet_eq_find, e]; rfl
        cases v with
        | vNull => exact absurd rfl (nullFreeV_ne_null _ hvf)
        | vMap m =>
          have hm : nullFreeM m = true := hvf
          simp only [pluckRest, resolveSpec, hg, e]
          exact ih m hm
        | _ => simp [pluckRest, resolveSpec, hg, e]

/-- C9: over a document storing no nil values, `pluck` computes exactly
the spec's Path Resolver: split the path on `.`, require every segment
but the last to find a nested mapping (else absent at once), and return
the final segment's value as-is — whatever its kind — if present, else
absent (`.vNull` being the absent marker). `pluck` is a pure function of
the document, so resolution never mutates it and repeated resolution is
identical. -/
theorem pluck_refines_resolveSpec (o : GoMap) (path : String)
    (h : nullFreeM o = true) :
    pluck o path = (resolveSpec o (splitDot path.data)).getD .vNull := by
  unfold pluck
  cases e : splitDot path.data with
  | nil => rfl
  | cons p0 rest =>
    cases rest with
    | nil =>
      cases e2 : mapFind o p0 with
      | none => simp [resolveSpec, mapGet_eq_find, e2]
      | some v =>
        have hv := nullFreeV_ne_null v (nullFree_find o p0 v h e2)
        simp [resolveSpec, mapGet_eq_find, e2, hv]
    | cons p1 r =>
      cases e2 : mapFind o p0 with
      | none => simp [resolveSpec, mapGet_eq_find, e2]
      | some v =>
        have hvf := nullFree_find o p0 v h e2
        have hg : mapGet o p0 = v := by rw [mapGet_eq_find, e2]; rfl
        cases v with
        | vNull => exact absurd rfl (nullFreeV_ne_null _ hvf)
        | vMap m =>
          have hm : nullFreeM m = true := hvf
          simp only [resolveSpec, hg, e2]
          have hv : (GoValue.vMap m) ≠ GoValue.vNull := by simp
          rw [if_pos hv]
          exact pluckRest_eq_resolveSpec (p1 :: r) m hm
        | _ => simp [resolveSpec, hg, e2]

/-- Witness for C9 on the document `{a:{b:{c:5}}}` and the path
`a.b.c`. -/
theorem pluck_refines_resolveSpec_witness :
    pluck (.cons "a" (.vMap (.cons "b" (.vMap (.cons "c" (.vInt64 5) .nil)) .nil)) .nil)
        "a.b.c" =
      (resolveSpec
        (.cons "a" (.vMap (.cons "b" (.vMap (.cons "c" (.vInt64 5) .nil)) .nil)) .nil)
        (splitDot "a.b.c".data)).getD .vNull :=
  pluck_refines_resolveSpec
    (.cons "a" (.vMap (.cons "b" (.vMap (.cons "c" (.vInt64 5) .nil)) .nil)) .nil)
    "a.b.c" (by decide)

/-! ## Claim C10 -/

theorem hitsNull_pluckRest (parts : List String) (prev : GoMap)
    (h : hitsNull prev parts = true) : pluckRest prev parts = .vNull := by
  induction parts generalizing prev with
  | nil => simp [hitsNull] at h
  | cons cp rest ih =>
    cases rest with
    | nil =>
      have e : mapFind prev cp = some .vNull := by
        simpa [hitsNull] using h
      have hg : mapGet prev cp = .vNull := by rw [mapGet_eq_find, e]; rfl
      simp [pluckRest, hg]
    | cons c2 r2 =>
      rw [hitsNull] at h
      cases e : mapFind prev cp with
      | none => rw [e] at h; cases h
      | some v =>
        have hg : mapGet prev cp = v := by rw [mapGet_eq_find, e]; rfl
        rw [e] at h
        cases v with
        | vNull => simp [pluckRest, hg]
        | vMap m =>
          simp only [pluckRest, hg]
          exact ih m h
        | _ => cases h

theorem hitsNull_pluck (o : GoMap) (path : String)
    (h : hitsNull o (splitDot path.data) = true) : pluck o path = .vNull := by
  unfold pluck
  cases e : splitDot path.data with
  | nil => rfl
  | cons p0 rest =>
    rw [e] at h
    cases rest with
    | nil =>
      have e2 : mapFind o p0 = some .vNull := by
        simpa [hitsNull] using h
      have hg : mapGet o p0 = .vNull := by rw [mapGet_eq_find, e2]; rfl
      simp [hg]
    | cons p1 r =>
      rw [hitsNull] at h
      cases e2 : mapFind o p0 with
      | none => rw [e2] at h; cases h
      | some v =>
        have hg : mapGet o p0 = v := by rw [mapGet_eq_find, e2]; rfl
        rw [e2] at h
        cases v with
        | vNull => simp [hg]
        | vMap m =>
          have hv : (GoValue.vMap m) ≠ GoValue.vNull := by simp
          simp only [hg]
          rw [if_pos hv]
          exact hitsNull_pluckRest (p1 :: r) m h
        | _ => cases h

/-- C10: when the keys along the path are present but the stored value at
the path (or at an intermediate step) is the nil interface (a JSON
null), `pluck` resolves to nil, and the rule behaves exactly as for a
missing key: `nexists` yields true, `exists` yields false, and any other
comparator fails with the missing-property error naming the path. -/
theorem null_value_treated_as_missing (o : GoMap) (f : Rule)
    (h : hitsNull o (splitDot f.Path.data) = true) :
    pluck o f.Path = .vNull
    ∧ (f.Comparator = "nexists" → Test [f] o = .ok true)
    ∧ (f.Comparator = "exists" → Test [f] o = .ok false)
    ∧ (f.Comparator ≠ "exists" → f.Comparator ≠ "nexists" →
        Test [f] o = .fail ("did not find property (" ++ f.Path ++ ") on map")) := by
  have hp := hitsNull_pluck o f.Path h
  refine ⟨hp, fun h2 => ?_, fun h1 => ?_, fun h1 h2 => ?_⟩ <;>
    rw [Test_single_absent f o hp]
  · have h1 : f.Comparator ≠ "exists" := by rw [h2]; decide
    simp [h1, h2]
  · simp [h1]
  · simp [h1, h2]

/-- Witness for C10 on the document `{a: null}`: all three comparator
families behave as for a missing key. -/
theorem null_value_treated_as_missing_witness :
    Test [⟨"nexists", "a", .vBool true⟩] (.cons "a" .vNull .nil) = .ok true
    ∧ Test [⟨"eq", "a", .vInt64 1⟩] (.cons "a" .vNull .nil) =
        .fail "did not find property (a) on map" :=
  ⟨(null_value_treated_as_missing (.cons "a" .vNull .nil)
      ⟨"nexists", "a", .vBool true⟩ (by decide)).2.1 rfl,
   (null_value_treated_as_missing (.cons "a" .vNull .nil)
      ⟨"eq", "a", .vInt64 1⟩ (by decide)).2.2.2 (by decide) (by decide)⟩

end GoRuler
